import Mathlib

/-!
Verification of the TUS 1.0.0 resumable-upload handler of OMERO.biomero
(`omero_biomero/tus_views.py`).

Modelling conventions (a shallow embedding of the Python source):

* Python `str` values are modelled as their UTF-8 byte sequences, `Str := List Nat`.
  All character-level operations the source performs (splitting on the ASCII
  characters `,` and a space, stripping ASCII whitespace, decimal parsing)
  act on ASCII bytes, which never occur inside a multi-byte UTF-8 sequence,
  so the byte-level model agrees with Python's unicode-level behaviour.
  Consequently `bytes.decode("utf-8")` is the identity in the model
  (it is only ever applied to byte sequences that are valid UTF-8 here).
* Python `bytes` values are likewise `List Nat` with entries below 256.
* The on-disk state (one `.meta` JSON file per resource in `TUS_UPLOAD_DIR`,
  one chunk file per resource, and the destination tree) is modelled as two
  association lists: `metas` maps a resource id to its metadata record
  (standing for the `{resource_id}.meta` files) and `files` maps a path to
  its byte content.  `save_metadata` / `load_metadata` / `delete_metadata`
  become operations on `metas`.
* I/O failures of the source are resolved by explicit oracle parameters:
  `failAt` says which read/write of the PATCH body-streaming loop raises
  (`none` = no failure), and `saveOk` says whether `save_metadata`'s
  `open`/`json.dump` succeeds (the source swallows its `IOError` and logs).
* Directory creation (`ensure_directories`, `mkdir`) has no observable
  effect in this model (directories are not files).
-/

set_option linter.unusedVariables false

/-- A Python string, represented by its UTF-8 byte sequence. -/
abbrev Str := List Nat

/-- Byte sequence of an ASCII string literal (used for the literals the
source contains, all of which are ASCII). -/
def ofStr (s : String) : Str := s.data.map Char.toNat

/-- The ASCII whitespace characters stripped by Python's `str.strip()`
(the unicode-only whitespace code points never appear in the inputs the
source strips). -/
def isPySpace (c : Nat) : Bool := c = 32 || c = 9 || c = 10 || c = 11 || c = 12 || c = 13

/-- Python `str.strip()` on the byte-level representation. -/
def pyStrip (l : Str) : Str :=
  ((l.dropWhile isPySpace).reverse.dropWhile isPySpace).reverse

/-- Python `str.split(sep)` for a one-character separator: keeps empty parts,
`"".split(sep) = [""]`. -/
def pySplit (sep : Nat) : Str → List Str
  | [] => [[]]
  | c :: rest =>
    if c = sep then [] :: pySplit sep rest
    else
      match pySplit sep rest with
      | h :: t => (c :: h) :: t
      | [] => [[c]]

/-- Python `str.split(sep, 1)` restricted to inputs that contain the
separator: the part before the first `sep` and the part after it. -/
def splitOnce (sep : Nat) : Str → Str × Str
  | [] => ([], [])
  | c :: rest =>
    if c = sep then ([], rest)
    else
      let r := splitOnce sep rest
      (c :: r.1, r.2)

/-- Decimal digit test (ASCII codes 48–57). -/
def isDigit (c : Nat) : Bool := decide (48 ≤ c ∧ c ≤ 57)

/-- Whether a byte string is a non-empty run of decimal digits. -/
def isDigits (l : Str) : Bool := decide (l ≠ []) && l.all isDigit

/-- Value of a digit run, most significant digit first. -/
def digitsVal (l : Str) : Nat := l.foldl (fun a c => a * 10 + (c - 48)) 0

/-- Parse a non-empty all-digit string to a natural number, as the digit
part of Python's `int()` does. -/
def parseNatDigits (l : Str) : Option Nat :=
  if isDigits l then some (digitsVal l) else none

/-- Decimal digits of a natural number, most significant first
(fuel-structured so that the kernel can evaluate it; `natDigits` below
instantiates the fuel). -/
def natDigitsAux : Nat → Nat → Str
  | 0, _ => []
  | fuel + 1, n =>
    if n < 10 then [48 + n]
    else natDigitsAux fuel (n / 10) ++ [48 + n % 10]

/-- Decimal rendering of a natural number (Python `str(n)` for `n ≥ 0`). -/
def natDigits (n : Nat) : Str := natDigitsAux (n + 1) n

/-- Python `str(i)` for an integer `i`. -/
def intToStr (i : Int) : Str :=
  if i < 0 then 45 :: natDigits (-i).toNat else natDigits i.toNat

/-- Python `int(s)` on a string: strip whitespace, optional sign, decimal
digits; `none` models `ValueError`.  (Digit-grouping underscores and
non-ASCII digits, which Python also accepts, are not modelled; no input
considered here contains them.) -/
def pyInt (s : Str) : Option Int :=
  match pyStrip s with
  | [] => none
  | c :: rest =>
    if c = 43 then (parseNatDigits rest).map Int.ofNat
    else if c = 45 then (parseNatDigits rest).map (fun n : Nat => -(n : Int))
    else (parseNatDigits (c :: rest)).map Int.ofNat

theorem digitsVal_append_one (xs : Str) (c : Nat) :
    digitsVal (xs ++ [c]) = digitsVal xs * 10 + (c - 48) := by
  simp [digitsVal, List.foldl_append]

theorem isDigits_append_digit {xs : Str} {c : Nat} (h1 : isDigits xs = true)
    (h2 : isDigit c = true) : isDigits (xs ++ [c]) = true := by
  simp only [isDigits, Bool.and_eq_true, decide_eq_true_eq, List.all_append,
    List.all_cons, List.all_nil, Bool.and_true] at *
  refine ⟨by simp, h1.2, h2⟩

theorem natDigitsAux_spec : ∀ fuel n, n < fuel →
    isDigits (natDigitsAux fuel n) = true ∧ digitsVal (natDigitsAux fuel n) = n := by
  intro fuel
  induction fuel with
  | zero => intro n h; omega
  | succ f ih =>
    intro n h
    by_cases h10 : n < 10
    · refine ⟨?_, ?_⟩
      · simp only [natDigitsAux, if_pos h10, isDigits, List.all_cons, List.all_nil,
          isDigit, Bool.and_true]
        simp
        omega
      · simp only [natDigitsAux, if_pos h10, digitsVal, List.foldl_cons, List.foldl_nil]
        omega
    · obtain ⟨ihd, ihv⟩ := ih (n / 10) (by omega)
      refine ⟨?_, ?_⟩
      · simp only [natDigitsAux, if_neg h10]
        refine isDigits_append_digit ihd ?_
        simp only [isDigit, decide_eq_true_eq]
        omega
      · simp only [natDigitsAux, if_neg h10, digitsVal_append_one, ihv]
        omega

theorem natDigits_isDigits (n : Nat) : isDigits (natDigits n) = true :=
  (natDigitsAux_spec (n + 1) n (by omega)).1

theorem natDigits_val (n : Nat) : digitsVal (natDigits n) = n :=
  (natDigitsAux_spec (n + 1) n (by omega)).2

theorem parseNatDigits_natDigits (n : Nat) :
    parseNatDigits (natDigits n) = some n := by
  simp [parseNatDigits, natDigits_isDigits, natDigits_val]

theorem dropWhile_all_false {p : Nat → Bool} :
    ∀ {l : Str}, (∀ c ∈ l, p c = false) → l.dropWhile p = l := by
  intro l h
  cases l with
  | nil => rfl
  | cons c rest =>
    have := h c (by simp)
    simp [List.dropWhile, this]

theorem pyStrip_no_space {l : Str} (h : ∀ c ∈ l, isPySpace c = false) :
    pyStrip l = l := by
  unfold pyStrip
  rw [dropWhile_all_false h, dropWhile_all_false, List.reverse_reverse]
  intro c hc
  exact h c (by simpa using hc)

theorem natDigits_chars {n : Nat} : ∀ c ∈ natDigits n, 48 ≤ c ∧ c ≤ 57 := by
  intro c hc
  have h := natDigits_isDigits n
  simp only [isDigits, Bool.and_eq_true, List.all_eq_true] at h
  have := h.2 c hc
  simpa [isDigit] using this

theorem digit_not_space {c : Nat} (h : 48 ≤ c ∧ c ≤ 57) : isPySpace c = false := by
  simp [isPySpace]; omega

theorem natDigits_ne_nil (n : Nat) : natDigits n ≠ [] := by
  have h := natDigits_isDigits n
  intro hn
  simp [isDigits, hn] at h

theorem pyInt_intToStr (i : Int) : pyInt (intToStr i) = some i := by
  by_cases hneg : i < 0
  · have hchars : ∀ c ∈ (45 :: natDigits (-i).toNat), isPySpace c = false := by
      intro c hc
      rcases hc with _ | hc
      · simp [isPySpace]
      · exact digit_not_space (natDigits_chars c (by assumption))
    simp only [intToStr, if_pos hneg, pyInt, pyStrip_no_space hchars]
    norm_num
    rw [parseNatDigits_natDigits]
    simp
    omega
  · have hchars : ∀ c ∈ natDigits i.toNat, isPySpace c = false := fun c hc =>
      digit_not_space (natDigits_chars c hc)
    simp only [intToStr, if_neg hneg]
    obtain ⟨c, rest, hcr⟩ : ∃ c rest, natDigits i.toNat = c :: rest := by
      cases hd : natDigits i.toNat with
      | nil => exact absurd hd (natDigits_ne_nil _)
      | cons c rest => exact ⟨c, rest, rfl⟩
    have hcd : 48 ≤ c ∧ c ≤ 57 := natDigits_chars c (by rw [hcr]; simp)
    rw [hcr] at hchars ⊢
    simp only [pyInt, pyStrip_no_space hchars]
    have hc43 : ¬(c = 43) := by omega
    have hc45 : ¬(c = 45) := by omega
    rw [if_neg hc43, if_neg hc45, ← hcr, parseNatDigits_natDigits]
    simp
    omega

/-- The standard base64 alphabet, sextet value to ASCII code
(`A–Z`, `a–z`, `0–9`, `+`, `/`). -/
def b64Char (n : Nat) : Nat :=
  if n < 26 then 65 + n
  else if n < 52 then 97 + (n - 26)
  else if n < 62 then 48 + (n - 52)
  else if n = 62 then 43
  else 47

/-- Inverse of the base64 alphabet; `none` for a character outside it. -/
def b64Index (c : Nat) : Option Nat :=
  if 65 ≤ c ∧ c ≤ 90 then some (c - 65)
  else if 97 ≤ c ∧ c ≤ 122 then some (c - 97 + 26)
  else if 48 ≤ c ∧ c ≤ 57 then some (c - 48 + 52)
  else if c = 43 then some 62
  else if c = 47 then some 63
  else none

/-- Standard base64 encoding with `=` padding (ASCII 61), as produced by
Python's `base64.b64encode` on a byte string. -/
def b64Encode : List Nat → Str
  | [] => []
  | [b0] => [b64Char (b0 / 4), b64Char (b0 % 4 * 16), 61, 61]
  | [b0, b1] => [b64Char (b0 / 4), b64Char (b0 % 4 * 16 + b1 / 16), b64Char (b1 % 16 * 4), 61]
  | b0 :: b1 :: b2 :: rest =>
    b64Char (b0 / 4) :: b64Char (b0 % 4 * 16 + b1 / 16) ::
      b64Char (b1 % 16 * 4 + b2 / 64) :: b64Char (b2 % 64) :: b64Encode rest

/-- Base64 decoding of well-formed standard base64 input, as
`base64.b64decode` behaves on such input (four-character groups, `=`
padding only at the end); `none` models the `binascii.Error` raised on
malformed input.  (On inputs with stray non-alphabet characters Python
first discards them; the source only ever receives values this model is
applied to in theorems through `b64Encode`, which are well-formed.) -/
def b64Decode : Str → Option (List Nat)
  | [] => some []
  | c0 :: c1 :: c2 :: c3 :: rest =>
    match b64Index c0, b64Index c1 with
    | some s0, some s1 =>
      if c2 = 61 ∧ c3 = 61 ∧ rest = [] then
        some [s0 * 4 + s1 / 16]
      else if c3 = 61 ∧ rest = [] then
        match b64Index c2 with
        | some s2 => some [s0 * 4 + s1 / 16, s1 % 16 * 16 + s2 / 4]
        | none => none
      else
        match b64Index c2, b64Index c3, b64Decode rest with
        | some s2, some s3, some ds =>
          some ((s0 * 4 + s1 / 16) :: (s1 % 16 * 16 + s2 / 4) :: (s2 % 4 * 64 + s3) :: ds)
        | _, _, _ => none
    | _, _ => none
  | _ => none

theorem b64Index_b64Char {n : Nat} (h : n < 64) : b64Index (b64Char n) = some n := by
  unfold b64Char b64Index
  split_ifs <;> simp_all <;> omega

theorem b64Char_ne_61 (n : Nat) : b64Char n ≠ 61 := by
  unfold b64Char
  split_ifs <;> omega

theorem b64Char_plain (n : Nat) : b64Char n ≠ 44 ∧ isPySpace (b64Char n) = false := by
  unfold b64Char
  split_ifs <;> simp [isPySpace] <;> omega

theorem b64Decode_b64Encode : ∀ l : List Nat, (∀ b ∈ l, b < 256) →
    b64Decode (b64Encode l) = some l := by
  intro l
  induction l using b64Encode.induct with
  | case1 => intro _; rfl
  | case2 b0 =>
    intro h
    have hb0 : b0 < 256 := h b0 (by simp)
    have h1 : b0 / 4 < 64 := by omega
    have h2 : b0 % 4 * 16 < 64 := by omega
    simp only [b64Encode, b64Decode, b64Index_b64Char h1, b64Index_b64Char h2]
    norm_num
    omega
  | case3 b0 b1 =>
    intro h
    have hb0 : b0 < 256 := h b0 (by simp)
    have hb1 : b1 < 256 := h b1 (by simp)
    have h1 : b0 / 4 < 64 := by omega
    have h2 : b0 % 4 * 16 + b1 / 16 < 64 := by omega
    have h3 : b1 % 16 * 4 < 64 := by omega
    simp only [b64Encode, b64Decode, b64Index_b64Char h1, b64Index_b64Char h2,
      b64Index_b64Char h3]
    have hne : b64Char (b1 % 16 * 4) ≠ 61 := b64Char_ne_61 _
    rw [if_neg (by intro hcon; exact hne hcon.1), if_pos (by simp)]
    norm_num
    constructor
    · omega
    · omega
  | case4 b0 b1 b2 rest ih =>
    intro h
    have hb0 : b0 < 256 := h b0 (by simp)
    have hb1 : b1 < 256 := h b1 (by simp)
    have hb2 : b2 < 256 := h b2 (by simp)
    have h1 : b0 / 4 < 64 := by omega
    have h2 : b0 % 4 * 16 + b1 / 16 < 64 := by omega
    have h3 : b1 % 16 * 4 + b2 / 64 < 64 := by omega
    have h4 : b2 % 64 < 64 := by omega
    have hrest : b64Decode (b64Encode rest) = some rest := by
      refine ih ?_
      intro b hb
      exact h b (by simp [hb])
    simp only [b64Encode, b64Decode, b64Index_b64Char h1, b64Index_b64Char h2,
      b64Index_b64Char h3, b64Index_b64Char h4]
    have hne3 : b64Char (b1 % 16 * 4 + b2 / 64) ≠ 61 := b64Char_ne_61 _
    have hne4 : b64Char (b2 % 64) ≠ 61 := b64Char_ne_61 _
    rw [if_neg (by intro hcon; exact hne3 hcon.1),
      if_neg (by intro hcon; exact hne4 hcon.1), hrest]
    norm_num
    refine ⟨by omega, by omega, by omega⟩

/-- Lookup in an association list (first entry with the key), modelling a
read of the per-resource file keyed by the first component. -/
def aget {α : Type} : List (Str × α) → Str → Option α
  | [], _ => none
  | (k', v) :: rest, k => if k' = k then some v else aget rest k

/-- Overwrite-or-add in an association list, modelling a file write at a
key (replace the first entry with the key, or append a new entry). -/
def aset {α : Type} : List (Str × α) → Str → α → List (Str × α)
  | [], k, v => [(k, v)]
  | (k', v') :: rest, k, v =>
    if k' = k then (k, v) :: rest else (k', v') :: aset rest k v

/-- Remove every entry with the key, modelling deletion of the file at a
key. -/
def adel {α : Type} : List (Str × α) → Str → List (Str × α)
  | [], _ => []
  | (k', v') :: rest, k =>
    if k' = k then adel rest k else (k', v') :: adel rest k

theorem aget_aset {α : Type} (l : List (Str × α)) (k : Str) (v : α) :
    aget (aset l k v) k = some v := by
  induction l with
  | nil => simp [aset, aget]
  | cons hd rest ih =>
    obtain ⟨k', v'⟩ := hd
    by_cases h : k' = k
    · simp [aset, if_pos h, aget]
    · simp [aset, if_neg h, aget, if_neg h, ih]

theorem aget_aset_ne {α : Type} (l : List (Str × α)) (k k2 : Str) (v : α)
    (h : k2 ≠ k) : aget (aset l k v) k2 = aget l k2 := by
  induction l with
  | nil => simp [aset, aget, Ne.symm h]
  | cons hd rest ih =>
    obtain ⟨k', v'⟩ := hd
    by_cases hk : k' = k
    · subst hk
      simp [aset, aget, Ne.symm h]
    · simp only [aset, if_neg hk, aget]
      by_cases hk2 : k' = k2
      · simp [hk2]
      · simp [hk2, ih]

theorem aget_adel {α : Type} (l : List (Str × α)) (k : Str) :
    aget (adel l k) k = none := by
  induction l with
  | nil => simp [adel, aget]
  | cons hd rest ih =>
    obtain ⟨k', v'⟩ := hd
    by_cases h : k' = k
    · simp [adel, if_pos h, ih]
    · simp [adel, if_neg h, aget, if_neg h, ih]

theorem aget_adel_ne {α : Type} (l : List (Str × α)) (k k2 : Str)
    (h : k2 ≠ k) : aget (adel l k) k2 = aget l k2 := by
  induction l with
  | nil => simp [adel]
  | cons hd rest ih =>
    obtain ⟨k', v'⟩ := hd
    by_cases hk : k' = k
    · subst hk
      simp [adel, aget, Ne.symm h, ih]
    · simp only [adel, if_neg hk, aget]
      by_cases hk2 : k' = k2
      · simp [hk2]
      · simp [hk2, ih]

theorem aset_aset {α : Type} (l : List (Str × α)) (k : Str) (v v2 : α) :
    aset (aset l k v) k v2 = aset l k v2 := by
  induction l with
  | nil => simp [aset]
  | cons hd rest ih =>
    obtain ⟨k', v'⟩ := hd
    by_cases h : k' = k
    · simp [aset, if_pos h]
    · simp [aset, if_neg h, ih]

theorem adel_aset {α : Type} (l : List (Str × α)) (k : Str) (v : α) :
    adel (aset l k v) k = adel l k := by
  induction l with
  | nil => simp [aset, adel]
  | cons hd rest ih =>
    obtain ⟨k', v'⟩ := hd
    by_cases h : k' = k
    · simp [aset, if_pos h, adel, ih]
    · simp [aset, if_neg h, adel, ih]

/-!  ## The data model of `tus_views.py`  -/

/-- A Python value that can be stored as the user id: `None`, an `int`, or
a `str` (this is what `_get_user_id` can return and what the metadata JSON
can hold in its `user_id` field). -/
inductive PyVal where
  | null : PyVal
  | int (n : Int) : PyVal
  | str (s : Str) : PyVal
deriving DecidableEq

/-- Python truthiness of a stored user id: `None`, `0` and `""` are falsy. -/
def PyVal.truthy : PyVal → Bool
  | .null => false
  | .int n => decide (n ≠ 0)
  | .str s => decide (s ≠ [])

/-- Python `str(v)` of a stored user id. -/
def pyStrOf : PyVal → Str
  | .null => ofStr "None"
  | .int n => intToStr n
  | .str s => s

/-- The `connector` session value: OMERO.web stores it as a dict (whose
`user_id` entry is modelled, `PyVal.null` when absent or null), and the
source also tolerates an object with a `user_id` attribute (`PyVal.null`
when the attribute is missing or `None`).  Both shapes fall through to the
Django auth fallback exactly when that value is null. -/
inductive Connector where
  | dict (user_id : PyVal) : Connector
  | obj (user_id : PyVal) : Connector
deriving DecidableEq

/-- The user id carried by either connector shape. -/
def Connector.uid : Connector → PyVal
  | .dict u => u
  | .obj u => u

/-- The request session, restricted to the keys the handler reads.
`connectorKey` is whether the key `connector` is present at all (what
`_check_auth` tests); `connector` is its value when present and truthy,
`none` otherwise; `user_id` is `session.get("user_id")` (null when the key
is absent or holds `None`); `auth_user_id` is
`session.get("_auth_user_id")`. -/
structure Session where
  connectorKey : Bool
  connector : Option Connector
  user_id : PyVal
  auth_user_id : PyVal
deriving DecidableEq

/-- The metadata record persisted per upload resource by `post`
(the JSON dict written by `save_metadata`). -/
structure Meta where
  length : Int
  offset : Int
  filename : Option Str
  metadata : List (Str × Option Str)
  chunk_path : Str
  user_id : PyVal
deriving DecidableEq

/-- The durable state: the metadata records keyed by resource id (the
`{id}.meta` files of `TUS_UPLOAD_DIR`) and the byte files keyed by path
(in-progress chunk files and the destination tree). -/
structure Sys where
  metas : List (Str × Meta)
  files : List (Str × List Nat)
deriving DecidableEq

/-- The configured directories `TUS_UPLOAD_DIR` and `TUS_DESTINATION_DIR`
(imported from `.settings` in the source). -/
structure Config where
  TUS_UPLOAD_DIR : Str
  TUS_DESTINATION_DIR : Str

/-- The response fields the spec's claims talk about: the HTTP status and
the `Location`, `Upload-Offset` and `Upload-Length` headers. -/
structure Resp where
  status : Nat
  location : Option Str
  uploadOffset : Option Int
  uploadLength : Option Int
deriving DecidableEq

/-- A response carrying only a status code. -/
def plainResp (st : Nat) : Resp := ⟨st, none, none, none⟩

/-- Whether an optional resource id fails Python's `if not resource_id`
test (absent or empty). -/
def falsyId : Option Str → Bool
  | none => true
  | some l => l.isEmpty

/-!  ## The handlers  -/

/-- The metadata files of `TUS_UPLOAD_DIR`: `load_metadata` reads the
record stored for a resource id (`none` models both a missing file and an
unreadable one, which the source also maps to `None`). -/
def load_metadata (metas : List (Str × Meta)) (rid : Str) : Option Meta :=
  aget metas rid

/-- Write of the metadata record.  The source catches `IOError` from
`open`/`json.dump` and only logs it; `ok` says whether the write
succeeded, and on failure the store is unchanged. -/
def save_metadata (metas : List (Str × Meta)) (rid : Str) (m : Meta) (ok : Bool) :
    List (Str × Meta) :=
  if ok then aset metas rid m else metas

/-- Deletion of the metadata record (`os.remove` guarded by existence). -/
def delete_metadata (metas : List (Str × Meta)) (rid : Str) : List (Str × Meta) :=
  adel metas rid

/-- The PATCH body-streaming loop: read up to 1 MiB pieces until an empty
read, appending each to the chunk file.  `pieces` is the sequence of
values returned by successive `request.read` calls; `failAt = some i`
means the i-th read/write raises (after the first `i` pieces were already
appended), `none` means no I/O failure.  Returns the bytes appended and
whether the loop completed without an exception. -/
def writeLoop : Option Nat → List Str → Str × Bool
  | some 0, _ => ([], false)
  | none, [] => ([], true)
  | some _, [] => ([], true)
  | none, p :: ps =>
    if p = [] then ([], true)
    else
      let r := writeLoop none ps
      (p ++ r.1, r.2)
  | some (n + 1), p :: ps =>
    if p = [] then ([], true)
    else
      let r := writeLoop (some n) ps
      (p ++ r.1, r.2)

/-- Concatenation of a list of byte strings. -/
def catAll : List Str → Str
  | [] => []
  | x :: xs => x ++ catAll xs

/-- Helper for `splitext`: scan the reversed name for the last dot,
accumulating the scanned suffix. -/
def splitextGo : Str → Str → Option (Str × Str)
  | [], _ => none
  | c :: rest, acc =>
    if c = 46 then some (rest.reverse, 46 :: acc) else splitextGo rest (c :: acc)

/-- Python `os.path.splitext` on a plain file name (no directory
separators, which the names used here do not contain): split at the last
dot, except that a name whose characters before the last dot are all dots
has no extension. -/
def splitext (s : Str) : Str × Str :=
  match splitextGo s.reverse [] with
  | none => (s, [])
  | some (base, ext) =>
    if base.any (fun c => decide (c ≠ 46)) then (base, ext) else (s, [])

/-- The candidate path `{dir}/{base}_{counter}{ext}` formed by the
duplicate-name loop of `_finalize_upload`. -/
def candPath (dir base ext : Str) (counter : Nat) : Str :=
  dir ++ [47] ++ (base ++ [95] ++ natDigits counter ++ ext)

/-- The `while os.path.exists(dest_path)` loop of `_finalize_upload`:
starting from `dest` with `counter`, as long as the current candidate
exists form the next suffixed candidate, incrementing the counter, and
break once the counter exceeds 1000 (keeping the last candidate formed
whether or not it exists).  The loop body runs at most 1000 times, so the
structural `fuel` of 1000 supplied by `find_dest` is never exhausted. -/
def destLoop (ex : Str → Bool) (dir base ext : Str) : Nat → Str → Nat → Str
  | 0, dest, _ => dest
  | fuel + 1, dest, counter =>
    if ex dest then
      let d := candPath dir base ext counter
      if counter + 1 > 1000 then d
      else destLoop ex dir base ext fuel d (counter + 1)
    else dest

/-- The destination path `_finalize_upload` settles on: start from
`{dir}/{filename}` and run the duplicate-suffix loop against the
existence predicate `ex`. -/
def find_dest (ex : Str → Bool) (dir fname : Str) : Str :=
  let be := splitext fname
  destLoop ex dir be.1 be.2 1000 (dir ++ [47] ++ fname) 1

/-- Authentication check: 401 unless the session has a `connector` key. -/
def TusUploadView._check_auth (s : Session) : Option Resp :=
  if !s.connectorKey then some (plainResp 401) else none

/-- Resolution of the requesting principal: the session's `user_id` if not
`None`, else the connector's `user_id` if not `None`, else the Django
`_auth_user_id` fallback. -/
def TusUploadView._get_user_id (s : Session) : PyVal :=
  if s.user_id = PyVal.null then
    match s.connector with
    | some c => if c.uid = PyVal.null then s.auth_user_id else c.uid
    | none => s.auth_user_id
  else s.user_id

/-- Ownership check: 403 exactly when the stored `user_id` is truthy and
its `str` differs from the `str` of the requesting principal. -/
def TusUploadView._check_ownership (s : Session) (meta : Meta) : Option Resp :=
  if meta.user_id.truthy ∧ pyStrOf meta.user_id ≠ pyStrOf (TusUploadView._get_user_id s)
  then some (plainResp 403)
  else none

/-- The per-item body of `_parse_metadata`'s loop: strip the item; an
item containing a space is split once into key and base64 value (falling
back to the raw value when decoding fails, with `decode("utf-8")` the
identity in the byte-string model); an item without a space is a bare key
stored as `None`. -/
def parseStep (m : List (Str × Option Str)) (item0 : Str) : List (Str × Option Str) :=
  let item := pyStrip item0
  if 32 ∈ item then
    let kv := splitOnce 32 item
    match b64Decode kv.2 with
    | some decoded => aset m kv.1 (some decoded)
    | none => aset m kv.1 (some kv.2)
  else aset m item none

/-- Parse the `Upload-Metadata` header: comma-separated items, each
processed by `parseStep` into the metadata dict. -/
def TusUploadView._parse_metadata (header : Str) : List (Str × Option Str) :=
  if header = [] then []
  else (pySplit 44 header).foldl parseStep []

/-- `POST`: create a new upload resource.  `rid` is the fresh
`uuid.uuid4()` the source generates; `upload_length` is the
`Upload-Length` header (`none` when absent) and `upload_metadata` the
`Upload-Metadata` header (`[]` when absent, its `get` default). -/
def TusUploadView.post (cfg : Config) (s : Session) (upload_length : Option Str)
    (upload_metadata : Str) (rid : Str) (saveOk : Bool) (sys : Sys) : Resp × Sys :=
  match TusUploadView._check_auth s with
  | some r => (r, sys)
  | none =>
    let user_id := TusUploadView._get_user_id s
    match upload_length with
    | none => (plainResp 400, sys)
    | some ls =>
      if ls = [] then (plainResp 400, sys)
      else
        match pyInt ls with
        | none => (plainResp 400, sys)
        | some len =>
          let metadata := TusUploadView._parse_metadata upload_metadata
          let filename : Option Str :=
            match aget metadata (ofStr "filename") with
            | none => some (ofStr "unknown")
            | some v => v
          let chunk_path := cfg.TUS_UPLOAD_DIR ++ [47] ++ rid
          let files1 := aset sys.files chunk_path []
          let meta : Meta := ⟨len, 0, filename, metadata, chunk_path, user_id⟩
          (⟨201, some rid, none, none⟩, ⟨save_metadata sys.metas rid meta saveOk, files1⟩)

/-- `HEAD`: report the current offset and length of an upload. -/
def TusUploadView.head (cfg : Config) (s : Session) (resource_id : Option Str)
    (sys : Sys) : Resp × Sys :=
  match TusUploadView._check_auth s with
  | some r => (r, sys)
  | none =>
    if falsyId resource_id then (plainResp 400, sys)
    else
      let rid := resource_id.getD []
      match load_metadata sys.metas rid with
      | none => (plainResp 404, sys)
      | some meta =>
        match TusUploadView._check_ownership s meta with
        | some r => (r, sys)
        | none => (⟨200, none, some meta.offset, some meta.length⟩, sys)

/-- `_finalize_upload`: build the per-user destination directory path, run
the duplicate-suffix probe, move the chunk file to the destination (the
`os.rename` and its copy-then-delete fallback produce the same final
state on success), and delete the metadata record.  `fname` is the
record's filename, a string in every state this is reached from. -/
def TusUploadView._finalize_upload (cfg : Config) (rid : Str) (meta : Meta)
    (fname : Str) (sys : Sys) : Sys :=
  let user_dest_dir := cfg.TUS_DESTINATION_DIR ++ ofStr "/user_" ++ pyStrOf meta.user_id
  let dest_path := find_dest (fun p => (aget sys.files p).isSome) user_dest_dir fname
  let content := (aget sys.files meta.chunk_path).getD []
  let files1 := aset (adel sys.files meta.chunk_path) dest_path content
  ⟨delete_metadata sys.metas rid, files1⟩

/-- `PATCH`: append a chunk.  `upload_offset` is the `Upload-Offset`
header; `pieces`, `failAt` and `saveOk` are the body stream and the I/O
oracles described at `writeLoop` and `save_metadata`.  When the new
offset reaches the declared length the source finalizes before
responding; a metadata record whose filename is `None` makes
`os.path.join` raise there, which surfaces as a 500 with the
already-saved offset kept (no such record is created by `post` from a
well-formed metadata header). -/
def TusUploadView.patch (cfg : Config) (s : Session) (resource_id : Option Str)
    (upload_offset : Option Str) (pieces : List Str) (failAt : Option Nat)
    (saveOk : Bool) (sys : Sys) : Resp × Sys :=
  match TusUploadView._check_auth s with
  | some r => (r, sys)
  | none =>
    if falsyId resource_id then (plainResp 400, sys)
    else
      let rid := resource_id.getD []
      match load_metadata sys.metas rid with
      | none => (plainResp 404, sys)
      | some meta =>
        match TusUploadView._check_ownership s meta with
        | some r => (r, sys)
        | none =>
          match upload_offset with
          | none => (plainResp 400, sys)
          | some cos =>
            match pyInt cos with
            | none => (plainResp 400, sys)
            | some client_offset =>
              if client_offset ≠ meta.offset then (plainResp 409, sys)
              else
                let old := (aget sys.files meta.chunk_path).getD []
                let wr := writeLoop failAt pieces
                let files1 := aset sys.files meta.chunk_path (old ++ wr.1)
                if !wr.2 then (plainResp 500, ⟨sys.metas, files1⟩)
                else
                  let new_offset : Int := meta.offset + wr.1.length
                  let meta1 : Meta := { meta with offset := new_offset }
                  let sys1 : Sys := ⟨save_metadata sys.metas rid meta1 saveOk, files1⟩
                  if new_offset ≥ meta.length then
                    match meta1.filename with
                    | some fname =>
                      (⟨204, none, some new_offset, none⟩,
                        TusUploadView._finalize_upload cfg rid meta1 fname sys1)
                    | none => (plainResp 500, sys1)
                  else (⟨204, none, some new_offset, none⟩, sys1)

/-- `DELETE`: cancel an upload, removing the chunk file if present and the
metadata record. -/
def TusUploadView.delete (cfg : Config) (s : Session) (resource_id : Option Str)
    (sys : Sys) : Resp × Sys :=
  match TusUploadView._check_auth s with
  | some r => (r, sys)
  | none =>
    if falsyId resource_id then (plainResp 400, sys)
    else
      let rid := resource_id.getD []
      match load_metadata sys.metas rid with
      | none => (plainResp 404, sys)
      | some meta =>
        match TusUploadView._check_ownership s meta with
        | some r => (r, sys)
        | none =>
          let files1 :=
            if (aget sys.files meta.chunk_path).isSome
            then adel sys.files meta.chunk_path else sys.files
          (plainResp 204, ⟨delete_metadata sys.metas rid, files1⟩)

example : ofStr "ab" = [97, 98] := by decide
example : pyInt (ofStr "-17") = some (-17) := by decide
example : pyInt (ofStr " 23 ") = some 23 := by decide
example : pyInt (ofStr "x2") = none := by decide
example : b64Decode (b64Encode [104, 105, 33]) = some [104, 105, 33] := by decide
example : splitext (ofStr "a.tar.gz") = (ofStr "a.tar", ofStr ".gz") := by decide
example : splitext (ofStr ".bashrc") = (ofStr ".bashrc", []) := by decide

/-!  ## Concrete instances used by witnesses and counterexamples  -/

/-- A concrete configuration. -/
def cfg0 : Config := ⟨ofStr "up", ofStr "dest"⟩

/-- An authenticated session for principal 7. -/
def s7 : Session := ⟨true, none, PyVal.int 7, PyVal.null⟩

/-- An authenticated session for principal 9. -/
def s9 : Session := ⟨true, none, PyVal.int 9, PyVal.null⟩

/-- A concrete resource id. -/
def rid0 : Str := ofStr "r"

/-- The chunk path `post` derives for `rid0` under `cfg0`. -/
def cp0 : Str := ofStr "up/r"

/-- An in-flight upload of principal 7: length 10, offset 3. -/
def m7 : Meta := ⟨10, 3, some (ofStr "a.txt"), [], cp0, PyVal.int 7⟩

/-- A state holding the upload `m7` with its three chunk bytes. -/
def sys7 : Sys := ⟨[(rid0, m7)], [(cp0, [65, 66, 67])]⟩

/-- An in-flight upload whose recorded owner is the root principal 0. -/
def mRoot : Meta := ⟨10, 3, some (ofStr "a.txt"), [], cp0, PyVal.int 0⟩

/-- A state holding the upload `mRoot`. -/
def sysRoot : Sys := ⟨[(rid0, mRoot)], [(cp0, [65, 66, 67])]⟩

/-- The empty state. -/
def sysE : Sys := ⟨[], []⟩

/-!  ## Helper lemmas about the handlers  -/

theorem check_auth_eq_some {s : Session} {x : Resp}
    (h : TusUploadView._check_auth s = some x) : x = plainResp 401 := by
  unfold TusUploadView._check_auth at h
  split_ifs at h with hc
  exact (Option.some.injEq _ _ ▸ h).symm

theorem check_ownership_eq_some {s : Session} {m : Meta} {x : Resp}
    (h : TusUploadView._check_ownership s m = some x) : x = plainResp 403 := by
  unfold TusUploadView._check_ownership at h
  split_ifs at h with hc
  exact (Option.some.injEq _ _ ▸ h).symm

theorem falsyId_some_ne {rid : Str} (h : rid ≠ []) : falsyId (some rid) = false := by
  cases rid with
  | nil => exact absurd rfl h
  | cons a t => rfl

/-- The filename `post` stores: the parsed metadata's `filename` value if
the key is present (possibly `None` for a bare key), else the literal
`unknown`. -/
def postFilename (mh : Str) : Option Str :=
  match aget (TusUploadView._parse_metadata mh) (ofStr "filename") with
  | none => some (ofStr "unknown")
  | some v => v

theorem post_success (cfg : Config) (s : Session) (ls mh rid : Str)
    (saveOk : Bool) (sys : Sys) (n : Int)
    (hauth : TusUploadView._check_auth s = none)
    (hls : pyInt ls = some n) (hlsne : ls ≠ []) :
    TusUploadView.post cfg s (some ls) mh rid saveOk sys =
      (⟨201, some rid, none, none⟩,
        ⟨save_metadata sys.metas rid
          ⟨n, 0, postFilename mh, TusUploadView._parse_metadata mh,
            cfg.TUS_UPLOAD_DIR ++ [47] ++ rid, TusUploadView._get_user_id s⟩ saveOk,
          aset sys.files (cfg.TUS_UPLOAD_DIR ++ [47] ++ rid) []⟩) := by
  simp [TusUploadView.post, hauth, hlsne, hls, postFilename]

/-!  ## Claim C1  -/

/-- C1: for an upload in CREATED state (a metadata record exists), a PATCH
whose `Upload-Offset` header parses to an integer different from the
record's offset returns 409 and leaves the whole state — in particular
the recorded offset and the chunk file — exactly unchanged.  (The request
is one that reaches the offset check: authenticated, resource id present,
ownership check passing.) -/
theorem c1_conflict_no_state_change
    (cfg : Config) (s : Session) (sys : Sys) (rid : Str) (m : Meta) (cos : Str)
    (o : Int) (pieces : List Str) (failAt : Option Nat) (saveOk : Bool)
    (hauth : TusUploadView._check_auth s = none)
    (hrid : rid ≠ [])
    (hm : load_metadata sys.metas rid = some m)
    (hown : TusUploadView._check_ownership s m = none)
    (hoff : pyInt cos = some o)
    (hne : o ≠ m.offset) :
    TusUploadView.patch cfg s (some rid) (some cos) pieces failAt saveOk sys =
      (plainResp 409, sys) := by
  simp only [TusUploadView.patch, hauth, falsyId_some_ne hrid, Option.getD_some,
    hm, hown, hoff]
  simp [hne]

/-- Witness for C1 at a concrete state: claimed offset 5 against recorded
offset 3 yields 409 with the state unchanged. -/
theorem c1_witness :
    TusUploadView.patch cfg0 s7 (some rid0) (some (ofStr "5")) [[88]] none true sys7 =
      (plainResp 409, sys7) :=
  c1_conflict_no_state_change cfg0 s7 sys7 rid0 m7 (ofStr "5") 5 [[88]] none true
    (by decide) (by decide) (by decide) (by decide) (by decide) (by decide)

/-!  ## Claim C5  -/

/-- C5 counterexample: an upload whose recorded owner is the root
principal 0 is served (HEAD → 200, not 403) to a different authenticated
principal (principal 9), because `0` is falsy in the ownership check —
refuting the claim that every non-owner principal receives 403. -/
theorem c5_counterexample :
    (TusUploadView.head cfg0 s9 (some rid0) sysRoot).1.status = 200 ∧
    mRoot.user_id = PyVal.int 0 ∧
    pyStrOf mRoot.user_id ≠ pyStrOf (TusUploadView._get_user_id s9) := by decide

/-- C5 (amended): whenever the recorded owner id is truthy (not absent,
null, 0, or the empty string), a request by any principal whose `str`
differs from the owner's receives 403 on HEAD, PATCH and DELETE, with the
state exactly unchanged, regardless of the rest of the request. -/
theorem c5_truthy_owner_isolation
    (cfg : Config) (s : Session) (sys : Sys) (rid : Str) (m : Meta)
    (offH : Option Str) (pieces : List Str) (failAt : Option Nat) (saveOk : Bool)
    (hauth : TusUploadView._check_auth s = none)
    (hrid : rid ≠ [])
    (hm : load_metadata sys.metas rid = some m)
    (htr : m.user_id.truthy = true)
    (hne : pyStrOf m.user_id ≠ pyStrOf (TusUploadView._get_user_id s)) :
    TusUploadView.head cfg s (some rid) sys = (plainResp 403, sys) ∧
    TusUploadView.patch cfg s (some rid) offH pieces failAt saveOk sys =
      (plainResp 403, sys) ∧
    TusUploadView.delete cfg s (some rid) sys = (plainResp 403, sys) := by
  have hown : TusUploadView._check_ownership s m = some (plainResp 403) := by
    simp [TusUploadView._check_ownership, htr, hne]
  refine ⟨?_, ?_, ?_⟩ <;>
    simp [TusUploadView.head, TusUploadView.patch, TusUploadView.delete,
      hauth, falsyId_some_ne hrid, hm, hown]

/-- Witness for the amended C5: principal 9 gets 403 against principal
7's upload on all three verbs. -/
theorem c5_witness :
    TusUploadView.head cfg0 s9 (some rid0) sys7 = (plainResp 403, sys7) ∧
    TusUploadView.patch cfg0 s9 (some rid0) (some (ofStr "3")) [[88]] none true sys7 =
      (plainResp 403, sys7) ∧
    TusUploadView.delete cfg0 s9 (some rid0) sys7 = (plainResp 403, sys7) :=
  c5_truthy_owner_isolation cfg0 s9 sys7 rid0 m7 (some (ofStr "3")) [[88]] none true
    (by decide) (by decide) (by decide) (by decide) (by decide)

/-!  ## Claim C10  -/

/-- C10: when the recorded owner id is falsy — absent/null, the integer 0
(the root user), or the empty string — the ownership check passes for
every authenticated principal, so any authenticated principal can HEAD,
PATCH (here: an append that stays below the declared length succeeds with
204) and DELETE the upload. -/
theorem c10_falsy_owner_accessible
    (cfg : Config) (s : Session) (sys : Sys) (rid : Str) (m : Meta) (cos : Str)
    (hauth : TusUploadView._check_auth s = none)
    (hrid : rid ≠ [])
    (hm : load_metadata sys.metas rid = some m)
    (hfalsy : m.user_id.truthy = false)
    (hoff : pyInt cos = some m.offset)
    (hlt : m.offset < m.length) :
    TusUploadView._check_ownership s m = none ∧
    (TusUploadView.head cfg s (some rid) sys).1.status = 200 ∧
    (TusUploadView.patch cfg s (some rid) (some cos) [] none true sys).1.status = 204 ∧
    (TusUploadView.delete cfg s (some rid) sys).1.status = 204 := by
  have hown : TusUploadView._check_ownership s m = none := by
    simp [TusUploadView._check_ownership, hfalsy]
  refine ⟨hown, ?_, ?_, ?_⟩
  · simp [TusUploadView.head, hauth, falsyId_some_ne hrid, hm, hown]
  · simp [TusUploadView.patch, hauth, falsyId_some_ne hrid, hm, hown, hoff,
      writeLoop, hlt.not_le]
  · simp [TusUploadView.delete, hauth, falsyId_some_ne hrid, hm, hown, plainResp]

/-- Witness for C10: principal 9 operating on the root-owned upload. -/
theorem c10_witness :
    TusUploadView._check_ownership s9 mRoot = none ∧
    (TusUploadView.head cfg0 s9 (some rid0) sysRoot).1.status = 200 ∧
    (TusUploadView.patch cfg0 s9 (some rid0) (some (ofStr "3")) [] none true
      sysRoot).1.status = 204 ∧
    (TusUploadView.delete cfg0 s9 (some rid0) sysRoot).1.status = 204 :=
  c10_falsy_owner_accessible cfg0 s9 sysRoot rid0 mRoot (ofStr "3")
    (by decide) (by decide) (by decide) (by decide) (by decide) (by decide)

/-!  ## Claim C3  -/

/-- C3 counterexample: `Upload-Length: -1` parses as the integer `-1`,
which is not non-negative, yet the create succeeds with 201 — refuting
the claim that a length that does not parse as a non-negative integer is
rejected with 400. -/
theorem c3_counterexample :
    (TusUploadView.post cfg0 s7 (some (ofStr "-1")) [] rid0 true sysE).1.status = 201 ∧
    pyInt (ofStr "-1") = some (-1) ∧ (-1 : Int) < 0 := by decide

/-- C3 (amended): an authenticated create fails with 400 exactly when the
`Upload-Length` header is missing, empty, or does not parse as an integer
at all — negative integers are accepted — and otherwise succeeds with 201
and (when the metadata write succeeds) a persisted record whose offset is
0. -/
theorem c3_create_length_validation
    (cfg : Config) (s : Session) (mh : Str) (rid : Str) (saveOk : Bool) (sys : Sys)
    (hauth : TusUploadView._check_auth s = none) :
    (TusUploadView.post cfg s none mh rid saveOk sys = (plainResp 400, sys)) ∧
    (TusUploadView.post cfg s (some []) mh rid saveOk sys = (plainResp 400, sys)) ∧
    (∀ ls, ls ≠ [] → pyInt ls = none →
      TusUploadView.post cfg s (some ls) mh rid saveOk sys = (plainResp 400, sys)) ∧
    (∀ ls n, pyInt ls = some n → ls ≠ [] →
      (TusUploadView.post cfg s (some ls) mh rid true sys).1.status = 201 ∧
      (aget (TusUploadView.post cfg s (some ls) mh rid true sys).2.metas rid).map
        Meta.offset = some 0) := by
  refine ⟨?_, ?_, ?_, ?_⟩
  · simp [TusUploadView.post, hauth]
  · simp [TusUploadView.post, hauth]
  · intro ls h1 h2
    simp [TusUploadView.post, hauth, h1, h2]
  · intro ls n h1 h2
    simp [TusUploadView.post, hauth, h2, h1, save_metadata, aget_aset]

/-- Witness for the amended C3: missing header and garbage header give
400 without state change; header `42` gives 201 and a record at offset 0. -/
theorem c3_witness :
    TusUploadView.post cfg0 s7 none [] rid0 true sysE = (plainResp 400, sysE) ∧
    TusUploadView.post cfg0 s7 (some (ofStr "abc")) [] rid0 true sysE =
      (plainResp 400, sysE) ∧
    (TusUploadView.post cfg0 s7 (some (ofStr "42")) [] rid0 true sysE).1.status = 201 ∧
    (aget (TusUploadView.post cfg0 s7 (some (ofStr "42")) [] rid0 true
      sysE).2.metas rid0).map Meta.offset = some 0 := by
  have h := c3_create_length_validation cfg0 s7 [] rid0 true sysE (by decide)
  have hd := h.2.2.2 (ofStr "42") 42 (by decide) (by decide)
  exact ⟨h.1, h.2.2.1 (ofStr "abc") (by decide) (by decide), hd.1, hd.2⟩

/-!  ## Claim C2  -/

/-- The record created by a POST whose declared length is `-1`. -/
def mNeg : Meta := ⟨-1, 0, some (ofStr "unknown"), [], cp0, PyVal.int 7⟩

/-- C2 counterexample: creating an upload with `Upload-Length: -1`
succeeds (201) and persists a record with `offset = 0` and `length = -1`,
a reachable post-creation state in which `offset ≤ length` fails. -/
theorem c2_counterexample :
    (TusUploadView.post cfg0 s7 (some (ofStr "-1")) [] rid0 true sysE).1.status = 201 ∧
    (TusUploadView.post cfg0 s7 (some (ofStr "-1")) [] rid0 true sysE).2.metas =
      [(rid0, mNeg)] ∧
    ¬(mNeg.offset ≤ mNeg.length) := by decide

/-- C2 (amended): provided the declared length is non-negative (which
creation does not itself enforce), `0 ≤ offset ≤ length` holds for the
record persisted at creation, and is preserved by every append that
reports success (204) and leaves a record in place: appends that stay
below the length keep `offset ≤ length`, and an append that reaches or
exceeds the length finalizes and deletes the record. -/
theorem c2_offset_within_bounds :
    (∀ cfg s ls mh rid saveOk sys n m,
      pyInt ls = some n → 0 ≤ n →
      aget sys.metas rid = none →
      aget (TusUploadView.post cfg s (some ls) mh rid saveOk sys).2.metas rid = some m →
      0 ≤ m.offset ∧ m.offset ≤ m.length) ∧
    (∀ cfg s rid cos pieces failAt saveOk sys m m2,
      aget sys.metas rid = some m → 0 ≤ m.offset → m.offset ≤ m.length →
      (TusUploadView.patch cfg s (some rid) cos pieces failAt saveOk sys).1.status = 204 →
      aget (TusUploadView.patch cfg s (some rid) cos pieces failAt saveOk
        sys).2.metas rid = some m2 →
      0 ≤ m2.offset ∧ m2.offset ≤ m2.length) := by
  constructor
  · intro cfg s ls mh rid saveOk sys n m h1 h0 hfresh hm2
    have hlsne : ls ≠ [] := by
      rintro rfl
      simp [pyInt, pyStrip] at h1
    rcases heq : TusUploadView._check_auth s with _ | r
    · rw [post_success cfg s ls mh rid saveOk sys n heq h1 hlsne] at hm2
      simp only [save_metadata] at hm2
      cases saveOk with
      | true =>
        rw [if_pos rfl, aget_aset] at hm2
        cases hm2
        exact ⟨le_refl 0, h0⟩
      | false =>
        rw [if_neg (by simp), hfresh] at hm2
        cases hm2
    · simp only [TusUploadView.post, heq] at hm2
      rw [hfresh] at hm2
      cases hm2
  · intro cfg s rid cos pieces failAt saveOk sys m m2 hm h0 hlen hst hm2
    suffices h : ∀ r sys2,
        TusUploadView.patch cfg s (some rid) cos pieces failAt saveOk sys = (r, sys2) →
        r.status = 204 → aget sys2.metas rid = some m2 →
        0 ≤ m2.offset ∧ m2.offset ≤ m2.length by
      exact h _ _ rfl hst hm2
    intro r sys2 hPeq hst2 hm22
    unfold TusUploadView.patch at hPeq
    simp only [Option.getD_some] at hPeq
    split at hPeq
    · -- authentication failed
      rename_i r' heq
      rw [Prod.mk.injEq] at hPeq
      rw [← hPeq.1, check_auth_eq_some heq] at hst2
      simp [plainResp] at hst2
    split at hPeq
    · -- empty resource id
      rw [Prod.mk.injEq] at hPeq
      rw [← hPeq.1] at hst2
      simp [plainResp] at hst2
    split at hPeq
    · -- no metadata record
      rw [Prod.mk.injEq] at hPeq
      rw [← hPeq.1] at hst2
      simp [plainResp] at hst2
    rename_i meta hload
    have hmeta : meta = m := by
      have h2 : aget sys.metas rid = some meta := hload
      rw [hm] at h2
      exact (Option.some.inj h2).symm
    subst hmeta
    split at hPeq
    · -- ownership check failed
      rename_i r' heq
      rw [Prod.mk.injEq] at hPeq
      rw [← hPeq.1, check_ownership_eq_some heq] at hst2
      simp [plainResp] at hst2
    split at hPeq
    · -- missing offset header
      rw [Prod.mk.injEq] at hPeq
      rw [← hPeq.1] at hst2
      simp [plainResp] at hst2
    rename_i cos2
    split at hPeq
    · -- unparsable offset header
      rw [Prod.mk.injEq] at hPeq
      rw [← hPeq.1] at hst2
      simp [plainResp] at hst2
    rename_i client_offset hco
    split at hPeq
    · -- offset mismatch
      rw [Prod.mk.injEq] at hPeq
      rw [← hPeq.1] at hst2
      simp [plainResp] at hst2
    rename_i hcoeq
    split at hPeq
    · -- write failure
      rw [Prod.mk.injEq] at hPeq
      rw [← hPeq.1] at hst2
      simp [plainResp] at hst2
    split at hPeq
    · -- finalization branch
      split at hPeq
      · -- filename present: record deleted
        rw [Prod.mk.injEq] at hPeq
        rw [← hPeq.2] at hm22
        simp only [TusUploadView._finalize_upload, delete_metadata, aget_adel] at hm22
        cases hm22
      · -- filename absent: join raises, 500
        rw [Prod.mk.injEq] at hPeq
        rw [← hPeq.1] at hst2
        simp [plainResp] at hst2
    · -- ordinary append below the length
      rename_i hnotge
      rw [Prod.mk.injEq] at hPeq
      rw [← hPeq.2] at hm22
      simp only [save_metadata] at hm22
      cases saveOk with
      | true =>
        rw [if_pos rfl, aget_aset] at hm22
        cases hm22
        refine ⟨by positivity, ?_⟩
        simp only [ge_iff_le, not_le] at hnotge
        exact le_of_lt hnotge
      | false =>
        rw [if_neg (by simp), hm] at hm22
        cases hm22
        exact ⟨h0, hlen⟩

/-- The record created with declared length 5 and no metadata header. -/
def mFive : Meta := ⟨5, 0, some (ofStr "unknown"), [], cp0, PyVal.int 7⟩

/-- The record `m7` after a successful one-byte append. -/
def m7after : Meta := ⟨10, 4, some (ofStr "a.txt"), [], cp0, PyVal.int 7⟩

/-- Witness for the amended C2: a freshly created length-5 record and the
record after a one-byte append to `m7` both satisfy the bounds. -/
theorem c2_witness :
    (0 ≤ mFive.offset ∧ mFive.offset ≤ mFive.length) ∧
    (0 ≤ m7after.offset ∧ m7after.offset ≤ m7after.length) :=
  ⟨c2_offset_within_bounds.1 cfg0 s7 (ofStr "5") [] rid0 true sysE 5 mFive
      (by decide) (by decide) (by decide) (by decide),
    c2_offset_within_bounds.2 cfg0 s7 rid0 (some (ofStr "3")) [[88]] none true sys7
      m7 m7after (by decide) (by decide) (by decide) (by decide) (by decide)⟩

/-!  ## Claim C6  -/

/-- C6 counterexample: a PATCH whose second 1 MiB write raises returns
500 with the recorded offset unchanged, but the byte store now holds the
first piece's bytes — refuting the claim that the byte store holds
exactly the bytes it held before the failing request (a blind retry of
the same append would duplicate those bytes). -/
theorem c6_counterexample :
    TusUploadView.patch cfg0 s7 (some rid0) (some (ofStr "3")) [[88], [89]]
        (some 1) true sys7 =
      (plainResp 500, ⟨sys7.metas, [(cp0, [65, 66, 67, 88])]⟩) ∧
    [(cp0, [65, 66, 67, 88])] ≠ sys7.files := by decide

/-- C6 (amended): an I/O failure while streaming the PATCH body returns
500 and leaves every metadata record — in particular the recorded
offset — unchanged, but the byte store keeps the prefix of the request
body that was already appended before the failure, so a blind retry of
the same append can duplicate bytes. -/
theorem c6_write_failure_keeps_offset
    (cfg : Config) (s : Session) (sys : Sys) (rid : Str) (m : Meta) (cos : Str)
    (pieces : List Str) (failAt : Option Nat) (saveOk : Bool)
    (hauth : TusUploadView._check_auth s = none)
    (hrid : rid ≠ [])
    (hm : load_metadata sys.metas rid = some m)
    (hown : TusUploadView._check_ownership s m = none)
    (hoff : pyInt cos = some m.offset)
    (hfail : (writeLoop failAt pieces).2 = false) :
    TusUploadView.patch cfg s (some rid) (some cos) pieces failAt saveOk sys =
      (plainResp 500,
        ⟨sys.metas,
          aset sys.files m.chunk_path
            ((aget sys.files m.chunk_path).getD [] ++ (writeLoop failAt pieces).1)⟩) := by
  simp [TusUploadView.patch, hauth, falsyId_some_ne hrid, hm, hown, hoff, hfail]

/-- Witness for the amended C6 at the concrete failing append. -/
theorem c6_witness :
    TusUploadView.patch cfg0 s7 (some rid0) (some (ofStr "3")) [[88], [89]]
        (some 1) true sys7 =
      (plainResp 500,
        ⟨sys7.metas,
          aset sys7.files m7.chunk_path
            ((aget sys7.files m7.chunk_path).getD [] ++
              (writeLoop (some 1) [[88], [89]]).1)⟩) :=
  c6_write_failure_keeps_offset cfg0 s7 sys7 rid0 m7 (ofStr "3") [[88], [89]]
    (some 1) true (by decide) (by decide) (by decide) (by decide) (by decide)
    (by decide)

/-!  ## Claim C7  -/

/-- C7 counterexample: when persisting the updated metadata record fails
(`save_metadata` catches `IOError` and only logs), the append still
reports success 204 with the new offset 4 while the stored record keeps
offset 3 — refuting the claim that a metadata-persistence failure is
surfaced to the caller as an error. -/
theorem c7_counterexample :
    TusUploadView.patch cfg0 s7 (some rid0) (some (ofStr "3")) [[88]] none false sys7 =
      (⟨204, none, some 4, none⟩, ⟨sys7.metas, [(cp0, [65, 66, 67, 88])]⟩) ∧
    (aget sys7.metas rid0).map Meta.offset = some 3 := by decide

/-- C7 (amended): besides the duplicate-filename suffixing bound, a
failure to persist the updated metadata record during an append is also
swallowed: the request reports success 204 carrying the new offset while
the metadata store is completely unchanged (the record still holds the
old offset). -/
theorem c7_save_failure_swallowed
    (cfg : Config) (s : Session) (sys : Sys) (rid : Str) (m : Meta) (cos : Str)
    (pieces : List Str) (failAt : Option Nat)
    (hauth : TusUploadView._check_auth s = none)
    (hrid : rid ≠ [])
    (hm : load_metadata sys.metas rid = some m)
    (hown : TusUploadView._check_ownership s m = none)
    (hoff : pyInt cos = some m.offset)
    (hwr : (writeLoop failAt pieces).2 = true)
    (hlt : m.offset + ((writeLoop failAt pieces).1.length : Int) < m.length) :
    TusUploadView.patch cfg s (some rid) (some cos) pieces failAt false sys =
      (⟨204, none, some (m.offset + ((writeLoop failAt pieces).1.length : Int)), none⟩,
        ⟨sys.metas,
          aset sys.files m.chunk_path
            ((aget sys.files m.chunk_path).getD [] ++ (writeLoop failAt pieces).1)⟩) := by
  simp [TusUploadView.patch, hauth, falsyId_some_ne hrid, hm, hown, hoff, hwr,
    save_metadata, not_le.mpr hlt]

/-- Witness for the amended C7 at the concrete failed save. -/
theorem c7_witness :
    TusUploadView.patch cfg0 s7 (some rid0) (some (ofStr "3")) [[88]] none false sys7 =
      (⟨204, none, some (m7.offset + ((writeLoop none [[88]]).1.length : Int)), none⟩,
        ⟨sys7.metas,
          aset sys7.files m7.chunk_path
            ((aget sys7.files m7.chunk_path).getD [] ++ (writeLoop none [[88]]).1)⟩) :=
  c7_save_failure_swallowed cfg0 s7 sys7 rid0 m7 (ofStr "3") [[88]] none
    (by decide) (by decide) (by decide) (by decide) (by decide) (by decide) (by decide)

/-!  ## Claim C8  -/

theorem destLoop_spec (ex : Str → Bool) (dir base ext : Str) :
    ∀ fuel counter dest, fuel + counter = 1001 → 1 ≤ counter → counter ≤ 1000 →
      ((ex dest = false → destLoop ex dir base ext fuel dest counter = dest) ∧
       (∀ k, counter ≤ k → k ≤ 1000 → ex dest = true →
         (∀ j, counter ≤ j → j < k → ex (candPath dir base ext j) = true) →
         ex (candPath dir base ext k) = false →
         destLoop ex dir base ext fuel dest counter = candPath dir base ext k) ∧
       (ex dest = true →
         (∀ j, counter ≤ j → j ≤ 999 → ex (candPath dir base ext j) = true) →
         destLoop ex dir base ext fuel dest counter = candPath dir base ext 1000)) := by
  intro fuel
  induction fuel with
  | zero => intro counter dest hfc h1 h1000; omega
  | succ f ih =>
    intro counter dest hfc h1 h1000
    by_cases hex : ex dest = true
    · by_cases hc : counter + 1 > 1000
      · have hceq : counter = 1000 := by omega
        subst hceq
        refine ⟨fun hexf => by simp [hexf] at hex, ?_, fun _ _ => by simp [destLoop, hex, hc]⟩
        intro k hk1 hk2 _ hall hfree
        have hkeq : k = 1000 := by omega
        subst hkeq
        simp [destLoop, hex, hc]
      · have hstep : destLoop ex dir base ext (f + 1) dest counter =
            destLoop ex dir base ext f (candPath dir base ext counter) (counter + 1) := by
          simp [destLoop, hex, hc]
        obtain ⟨ih1, ih2, ih3⟩ :=
          ih (counter + 1) (candPath dir base ext counter) (by omega) (by omega) (by omega)
        refine ⟨fun hexf => by simp [hexf] at hex, ?_, ?_⟩
        · intro k hk1 hk2 _ hall hfree
          rw [hstep]
          by_cases hkc : k = counter
          · subst hkc
            exact ih1 hfree
          · have hklt : counter < k := by omega
            exact ih2 k (by omega) hk2 (hall counter (le_refl _) hklt)
              (fun j hj1 hj2 => hall j (by omega) hj2) hfree
        · intro _ hall
          rw [hstep]
          exact ih3 (hall counter (le_refl _) (by omega))
            (fun j hj1 hj2 => hall j (by omega) hj2)
    · have hexf : ex dest = false := by
        cases hexval : ex dest
        · rfl
        · exact absurd hexval hex
      refine ⟨fun _ => by simp [destLoop, hexf], ?_, ?_⟩
      · intro k _ _ hexd _ _
        rw [hexd] at hexf
        cases hexf
      · intro hexd _
        rw [hexd] at hexf
        cases hexf

/-- C8: during finalization, with `ex` the file-existence predicate of the
destination tree, the duplicate-name probe (i) keeps the plain path
`dir/filename` when it is free, (ii) otherwise tries `dir/base_k ext` for
k = 1, 2, … in increasing order and settles on the first free candidate
(for any k up to the bound 1000), and (iii) when the plain path and the
first 999 suffixed candidates all exist, stops at the bound and proceeds
with the last attempted candidate `dir/base_1000 ext` whether or not it
is free. -/
theorem c8_duplicate_suffix_probe (files : List (Str × List Nat)) (dir fname : Str) :
    (((aget files (dir ++ [47] ++ fname)).isSome = false →
       find_dest (fun p => (aget files p).isSome) dir fname = dir ++ [47] ++ fname) ∧
     (∀ k, 1 ≤ k → k ≤ 1000 →
       (aget files (dir ++ [47] ++ fname)).isSome = true →
       (∀ j, 1 ≤ j → j < k →
         (aget files (candPath dir (splitext fname).1 (splitext fname).2 j)).isSome = true) →
       (aget files (candPath dir (splitext fname).1 (splitext fname).2 k)).isSome = false →
       find_dest (fun p => (aget files p).isSome) dir fname =
         candPath dir (splitext fname).1 (splitext fname).2 k) ∧
     ((aget files (dir ++ [47] ++ fname)).isSome = true →
       (∀ j, 1 ≤ j → j ≤ 999 →
         (aget files (candPath dir (splitext fname).1 (splitext fname).2 j)).isSome = true) →
       find_dest (fun p => (aget files p).isSome) dir fname =
         candPath dir (splitext fname).1 (splitext fname).2 1000)) := by
  have h := destLoop_spec (fun p => (aget files p).isSome) dir
    (splitext fname).1 (splitext fname).2 1000 1 (dir ++ [47] ++ fname)
    (by omega) (by omega) (by omega)
  exact ⟨h.1, fun k hk1 hk2 => h.2.1 k hk1 hk2, h.2.2⟩

/-- Files for the C8 witness: the plain name and the first suffixed
candidate are taken. -/
def files8 : List (Str × List Nat) :=
  [(ofStr "dest/user_7/a.txt", [1]), (ofStr "dest/user_7/a_1.txt", [2])]

/-- Witness for C8: with `a.txt` and `a_1.txt` present, the probe settles
on `a_2.txt`. -/
theorem c8_witness :
    find_dest (fun p => (aget files8 p).isSome) (ofStr "dest/user_7") (ofStr "a.txt") =
      candPath (ofStr "dest/user_7") (splitext (ofStr "a.txt")).1
        (splitext (ofStr "a.txt")).2 2 := by
  refine (c8_duplicate_suffix_probe files8 (ofStr "dest/user_7")
    (ofStr "a.txt")).2.1 2 (by decide) (by decide) (by decide) ?_ (by decide)
  intro j h1 h2
  interval_cases j
  decide

/-!  ## Claim C9  -/

/-- Well-formedness of a metadata key for the wire encoding: non-empty,
no ASCII whitespace, no comma. -/
def goodKeyB (k : Str) : Bool :=
  decide (k ≠ []) && k.all (fun c => !isPySpace c && decide (c ≠ 44))

/-- Well-formedness of a metadata value: a missing value is fine, a
present one is a non-empty byte string (bytes below 256). -/
def goodValB : Option Str → Bool
  | none => true
  | some v => decide (v ≠ []) && v.all (fun b => decide (b < 256))

/-- One item of the encoding the spec describes for the creation metadata
blob: `key base64(value)` for a valued pair, the bare key for a null
pair. -/
def metadataItem : Str × Option Str → Str
  | (k, some v) => k ++ [32] ++ b64Encode v
  | (k, none) => k

/-- Join items with a separator character. -/
def joinWith (sep : Nat) : List Str → Str
  | [] => []
  | [x] => x
  | x :: y :: ys => x ++ sep :: joinWith sep (y :: ys)

/-- The comma-separated `Upload-Metadata` header encoding a list of
key/value pairs, as the spec describes it. -/
def metadataHeaderOf (pairs : List (Str × Option Str)) : Str :=
  joinWith 44 (pairs.map metadataItem)

theorem goodKeyB_spec {k : Str} (h : goodKeyB k = true) :
    k ≠ [] ∧ ∀ c ∈ k, isPySpace c = false ∧ c ≠ 44 := by
  simp only [goodKeyB, Bool.and_eq_true, decide_eq_true_eq, List.all_eq_true,
    Bool.not_eq_true'] at h
  exact ⟨h.1, fun c hc => ⟨(h.2 c hc).1, by have := (h.2 c hc).2; simpa using this⟩⟩

theorem goodKey_no32 {k : Str} (h : goodKeyB k = true) : ∀ c ∈ k, c ≠ 32 := by
  intro c hc hc32
  have := ((goodKeyB_spec h).2 c hc).1
  rw [hc32] at this
  simp [isPySpace] at this

theorem aset_append_absent {α : Type} (l : List (Str × α)) (k : Str) (v : α)
    (h : aget l k = none) : aset l k v = l ++ [(k, v)] := by
  induction l with
  | nil => rfl
  | cons hd rest ih =>
    obtain ⟨k', v'⟩ := hd
    by_cases hk : k' = k
    · simp only [aget, if_pos hk] at h
      cases h
    · simp only [aget, if_neg hk] at h
      simp [aset, if_neg hk, ih h]

theorem aget_append_singleton_none {α : Type} (l : List (Str × α)) (k k2 : Str)
    (v : α) (h : aget l k2 = none) (hne : k2 ≠ k) :
    aget (l ++ [(k, v)]) k2 = none := by
  induction l with
  | nil => simp [aget, Ne.symm hne]
  | cons hd rest ih =>
    obtain ⟨k', v'⟩ := hd
    by_cases hk : k' = k2
    · simp only [aget, if_pos hk] at h
      cases h
    · simp only [List.cons_append, aget, if_neg hk] at h ⊢
      exact ih h

theorem pySplit_sepfree (sep : Nat) : ∀ x : Str, (∀ c ∈ x, c ≠ sep) →
    pySplit sep x = [x] := by
  intro x
  induction x with
  | nil => intro _; rfl
  | cons c rest ih =>
    intro h
    have hc : c ≠ sep := h c (by simp)
    simp [pySplit, hc, ih (fun d hd => h d (by simp [hd]))]

theorem pySplit_append_sep (sep : Nat) : ∀ x r : Str, (∀ c ∈ x, c ≠ sep) →
    pySplit sep (x ++ sep :: r) = x :: pySplit sep r := by
  intro x
  induction x with
  | nil => intro r _; simp [pySplit]
  | cons c x2 ih =>
    intro r h
    have hc : c ≠ sep := h c (by simp)
    simp [pySplit, hc, ih r (fun d hd => h d (by simp [hd]))]

theorem pySplit_joinWith (sep : Nat) : ∀ items : List Str, items ≠ [] →
    (∀ it ∈ items, ∀ c ∈ it, c ≠ sep) →
    pySplit sep (joinWith sep items) = items := by
  intro items
  induction items with
  | nil => intro h _; exact absurd rfl h
  | cons x xs ih =>
    intro _ hfree
    cases xs with
    | nil => simpa [joinWith] using pySplit_sepfree sep x (hfree x (by simp))
    | cons y ys =>
      simp only [joinWith]
      rw [pySplit_append_sep sep x _ (hfree x (by simp)),
        ih (by simp) (fun it hit => hfree it (by simp [hit]))]

theorem splitOnce_append (k e : Str) (hk : ∀ c ∈ k, c ≠ 32) :
    splitOnce 32 (k ++ 32 :: e) = (k, e) := by
  induction k with
  | nil => simp [splitOnce]
  | cons c k2 ih =>
    have hc : c ≠ 32 := hk c (by simp)
    simp [splitOnce, hc, ih (fun d hd => hk d (by simp [hd]))]

theorem b64Encode_chars : ∀ v : List Nat, ∀ c ∈ b64Encode v,
    c ≠ 44 ∧ isPySpace c = false := by
  intro v
  induction v using b64Encode.induct with
  | case1 => intro c hc; simp [b64Encode] at hc
  | case2 b0 =>
    intro c hc
    simp only [b64Encode, List.mem_cons, List.not_mem_nil, or_false] at hc
    rcases hc with rfl | rfl | rfl | rfl
    exacts [b64Char_plain _, b64Char_plain _, by decide, by decide]
  | case3 b0 b1 =>
    intro c hc
    simp only [b64Encode, List.mem_cons, List.not_mem_nil, or_false] at hc
    rcases hc with rfl | rfl | rfl | rfl
    exacts [b64Char_plain _, b64Char_plain _, b64Char_plain _, by decide]
  | case4 b0 b1 b2 rest ih =>
    intro c hc
    simp only [b64Encode, List.mem_cons] at hc
    rcases hc with rfl | rfl | rfl | rfl | hmem
    exacts [b64Char_plain _, b64Char_plain _, b64Char_plain _, b64Char_plain _, ih c hmem]

theorem b64Encode_ne_nil {v : List Nat} (h : v ≠ []) : b64Encode v ≠ [] := by
  cases v with
  | nil => exact absurd rfl h
  | cons b0 r1 =>
    cases r1 with
    | nil => simp [b64Encode]
    | cons b1 r2 =>
      cases r2 with
      | nil => simp [b64Encode]
      | cons b2 r3 => simp [b64Encode]

theorem dropWhile_cons_false {p : Nat → Bool} {c : Nat} {t : Str} (hc : p c = false) :
    (c :: t).dropWhile p = c :: t := by
  simp [List.dropWhile, hc]

theorem pyStrip_cons_concat {c d : Nat} {mid : Str}
    (hc : isPySpace c = false) (hd : isPySpace d = false) :
    pyStrip (c :: (mid ++ [d])) = c :: (mid ++ [d]) := by
  unfold pyStrip
  rw [dropWhile_cons_false hc]
  have hrev : (c :: (mid ++ [d])).reverse = d :: (mid.reverse ++ [c]) := by simp
  rw [hrev, dropWhile_cons_false hd]
  simp

theorem parseStep_valued (m : List (Str × Option Str)) (k v : Str)
    (hk : goodKeyB k = true) (hv : v ≠ []) (hvb : ∀ b ∈ v, b < 256) :
    parseStep m (metadataItem (k, some v)) = aset m k (some v) := by
  obtain ⟨hkne, hkc⟩ := goodKeyB_spec hk
  obtain ⟨c, k2, rfl⟩ := List.exists_cons_of_ne_nil hkne
  obtain ⟨mid, d, henc⟩ :=
    (List.eq_nil_or_concat (b64Encode v)).resolve_left (b64Encode_ne_nil hv)
  have hd : isPySpace d = false :=
    (b64Encode_chars v d (by rw [henc]; simp)).2
  have hform : metadataItem (c :: k2, some v) = c :: ((k2 ++ 32 :: mid) ++ [d]) := by
    show (c :: k2) ++ [32] ++ b64Encode v = _
    rw [henc]
    simp
  simp only [parseStep, hform]
  rw [pyStrip_cons_concat (hkc c (by simp)).1 hd]
  have hform2 : c :: ((k2 ++ 32 :: mid) ++ [d]) = (c :: k2) ++ 32 :: (mid ++ [d]) := by
    simp
  rw [hform2, if_pos (by simp), splitOnce_append _ _ (goodKey_no32 hk)]
  rw [List.concat_eq_append] at henc
  rw [← henc, b64Decode_b64Encode v hvb]

theorem parseStep_bare (m : List (Str × Option Str)) (k : Str)
    (hk : goodKeyB k = true) :
    parseStep m (metadataItem (k, none)) = aset m k none := by
  obtain ⟨hkne, hkc⟩ := goodKeyB_spec hk
  have h32 : ¬(32 ∈ k) := fun hmem => goodKey_no32 hk 32 hmem rfl
  simp only [parseStep]
  have hstrip : pyStrip (metadataItem (k, none)) = k :=
    pyStrip_no_space (fun c hc => (hkc c hc).1)
  rw [hstrip, if_neg h32]

theorem metadataItem_comma_free (p : Str × Option Str)
    (hk : goodKeyB p.1 = true) : ∀ c ∈ metadataItem p, c ≠ 44 := by
  obtain ⟨k, v⟩ := p
  obtain ⟨_, hkc⟩ := goodKeyB_spec hk
  cases v with
  | none => exact fun c hc => (hkc c hc).2
  | some w =>
    intro c hc
    simp only [metadataItem, List.append_assoc, List.mem_append, List.mem_cons,
      List.not_mem_nil, or_false] at hc
    rcases hc with hck | rfl | hcb
    · exact (hkc c hck).2
    · decide
    · exact (b64Encode_chars w c hcb).1

theorem parse_fold (pairs : List (Str × Option Str)) :
    ∀ acc, (∀ p ∈ pairs, aget acc p.1 = none) →
      (pairs.map Prod.fst).Nodup →
      pairs.all (fun p => goodKeyB p.1 && goodValB p.2) = true →
      (pairs.map metadataItem).foldl parseStep acc = acc ++ pairs := by
  induction pairs with
  | nil => intro acc _ _ _; simp
  | cons p rest ih =>
    obtain ⟨k, v⟩ := p
    intro acc hfresh hnodup hgood
    simp only [List.all_cons, Bool.and_eq_true] at hgood
    obtain ⟨⟨hk, hv⟩, hgrest⟩ := hgood
    simp only [List.map_cons, List.nodup_cons] at hnodup
    obtain ⟨hknotin, hnodrest⟩ := hnodup
    have hstep : parseStep acc (metadataItem (k, v)) = acc ++ [(k, v)] := by
      cases v with
      | none =>
        rw [parseStep_bare acc k hk,
          aset_append_absent _ _ _ (hfresh (k, none) (by simp))]
      | some w =>
        simp only [goodValB, Bool.and_eq_true, decide_eq_true_eq,
          List.all_eq_true] at hv
        rw [parseStep_valued acc k w hk hv.1
            (fun b hb => by have := hv.2 b hb; simpa using this),
          aset_append_absent _ _ _ (hfresh (k, some w) (by simp))]
    simp only [List.map_cons, List.foldl_cons, hstep]
    rw [ih (acc ++ [(k, v)]) ?_ hnodrest hgrest]
    · simp
    · intro q hq
      refine aget_append_singleton_none _ _ _ _ (hfresh q (by simp [hq])) ?_
      intro heq
      exact hknotin (heq ▸ List.mem_map_of_mem Prod.fst hq)

/-- C9 counterexample: the pair `(k, "")` — an empty value — encodes as
the item `k` followed by a space and the empty base64 string; after
stripping, the item has no space, so it is stored as a bare key mapped to
null rather than as the empty string, refuting the claim for arbitrary
values. -/
theorem c9_counterexample :
    TusUploadView._parse_metadata (metadataHeaderOf [(ofStr "k", some [])]) =
      [(ofStr "k", none)] ∧
    (none : Option Str) ≠ some ([] : Str) := by decide

/-- C9 (amended): for pairs whose keys are non-empty, whitespace- and
comma-free, and pairwise distinct, and whose values are non-empty byte
strings, the mapping `_parse_metadata` stores for the encoded header
equals the original pairs exactly (values base64-decoded back, including
values containing commas or spaces; bare keys stored as null).  A pair
with an empty value is stored as null, like a bare key. -/
theorem c9_metadata_roundtrip (pairs : List (Str × Option Str))
    (hgood : pairs.all (fun p => goodKeyB p.1 && goodValB p.2) = true)
    (hnodup : (pairs.map Prod.fst).Nodup) :
    TusUploadView._parse_metadata (metadataHeaderOf pairs) = pairs := by
  rcases pairs with _ | ⟨⟨k, v⟩, rest⟩
  · rfl
  · have hgood2 := hgood
    simp only [List.all_cons, Bool.and_eq_true] at hgood2
    obtain ⟨⟨hk, hv⟩, _⟩ := hgood2
    obtain ⟨hkne, _⟩ := goodKeyB_spec hk
    have hitemne : metadataItem (k, v) ≠ [] := by
      cases v with
      | none => exact hkne
      | some w =>
        obtain ⟨c, k2, rfl⟩ := List.exists_cons_of_ne_nil hkne
        simp [metadataItem]
    have hne : metadataHeaderOf ((k, v) :: rest) ≠ [] := by
      cases rest with
      | nil => simpa [metadataHeaderOf, joinWith] using hitemne
      | cons q qs => simp [metadataHeaderOf, joinWith]
    have hcf : ∀ it ∈ ((k, v) :: rest).map metadataItem, ∀ c ∈ it, c ≠ 44 := by
      intro it hit
      simp only [List.mem_map] at hit
      obtain ⟨p, hp, rfl⟩ := hit
      have hgp := List.all_eq_true.mp hgood p hp
      simp only [Bool.and_eq_true] at hgp
      exact metadataItem_comma_free p hgp.1
    unfold TusUploadView._parse_metadata
    rw [if_neg hne]
    unfold metadataHeaderOf
    rw [pySplit_joinWith 44 _ (by simp) hcf]
    have hfold := parse_fold ((k, v) :: rest) [] (fun p _ => rfl) hnodup hgood
    simpa using hfold

/-- Pairs for the C9 witness: a filename whose decoded value contains a
comma and spaces, and a bare key. -/
def pairs9 : List (Str × Option Str) :=
  [(ofStr "filename", some (ofStr "my file, v1.tif")), (ofStr "flag", none)]

/-- Witness for the amended C9 at a concrete pair list. -/
theorem c9_witness :
    TusUploadView._parse_metadata (metadataHeaderOf pairs9) = pairs9 :=
  c9_metadata_roundtrip pairs9 (by decide) (by decide)

/-!  ## Claim C4  -/

/-- The bytes of a full upload: concatenation of the bodies, each body
being the pieces of one append. -/
def allBytes (bodies : List (List Str)) : List Nat := catAll (bodies.map catAll)

/-- The recorded offset of a resource in a state (0 when absent; only used
where the record exists). -/
def offsetAt (sys : Sys) (rid : Str) : Int :=
  match aget sys.metas rid with
  | some m => m.offset
  | none => 0

/-- A well-behaved TUS client: issue one PATCH per body, each claiming the
server's current recorded offset, with no I/O failures. -/
def patchSeq (cfg : Config) (s : Session) (rid : Str) : List (List Str) → Sys → Sys
  | [], sys => sys
  | b :: rest, sys =>
    patchSeq cfg s rid rest
      (TusUploadView.patch cfg s (some rid) (some (intToStr (offsetAt sys rid)))
        b none true sys).2

/-- The destination path finalization computes when its probe finds the
plain per-user path free. -/
def destPathOf (cfg : Config) (u : PyVal) (fn : Str) : Str :=
  cfg.TUS_DESTINATION_DIR ++ ofStr "/user_" ++ pyStrOf u ++ [47] ++ fn

theorem writeLoop_none_ok (ps : List Str) (h : ∀ p ∈ ps, p ≠ []) :
    writeLoop none ps = (catAll ps, true) := by
  induction ps with
  | nil => rfl
  | cons p rest ih =>
    have hp : ¬(p = []) := h p (by simp)
    simp [writeLoop, hp, catAll, ih (fun q hq => h q (by simp [hq]))]

theorem check_ownership_self (s : Session) (m : Meta)
    (h : pyStrOf m.user_id = pyStrOf (TusUploadView._get_user_id s)) :
    TusUploadView._check_ownership s m = none := by
  unfold TusUploadView._check_ownership
  rw [if_neg]
  intro hcon
  exact hcon.2 h

theorem patch_step_mid (cfg : Config) (s : Session) (rid : Str)
    (M : List (Str × Meta)) (F : List (Str × List Nat))
    (L o : Int) (fn : Str) (md : List (Str × Option Str)) (cp : Str) (u : PyVal)
    (c : List Nat) (b : List Str)
    (hauth : TusUploadView._check_auth s = none)
    (hrid : rid ≠ [])
    (hu : pyStrOf u = pyStrOf (TusUploadView._get_user_id s))
    (hb : ∀ p ∈ b, p ≠ [])
    (hlt : o + ((catAll b).length : Int) < L) :
    TusUploadView.patch cfg s (some rid) (some (intToStr o)) b none true
      ⟨aset M rid ⟨L, o, some fn, md, cp, u⟩, aset F cp c⟩ =
      (⟨204, none, some (o + ((catAll b).length : Int)), none⟩,
        ⟨aset M rid ⟨L, o + ((catAll b).length : Int), some fn, md, cp, u⟩,
          aset F cp (c ++ catAll b)⟩) := by
  have hown := check_ownership_self s ⟨L, o, some fn, md, cp, u⟩ hu
  have hload : load_metadata (aset M rid ⟨L, o, some fn, md, cp, u⟩) rid =
      some ⟨L, o, some fn, md, cp, u⟩ := aget_aset M rid _
  simp [TusUploadView.patch, hauth, falsyId_some_ne hrid, hload, hown,
    pyInt_intToStr, writeLoop_none_ok b hb, aget_aset, aset_aset, save_metadata,
    hlt.not_le]

theorem patch_step_final (cfg : Config) (s : Session) (rid : Str)
    (M : List (Str × Meta)) (F : List (Str × List Nat))
    (L o : Int) (fn : Str) (md : List (Str × Option Str)) (cp : Str) (u : PyVal)
    (c : List Nat) (b : List Str)
    (hauth : TusUploadView._check_auth s = none)
    (hrid : rid ≠ [])
    (hu : pyStrOf u = pyStrOf (TusUploadView._get_user_id s))
    (hb : ∀ p ∈ b, p ≠ [])
    (hge : L ≤ o + ((catAll b).length : Int))
    (hdest : aget F (destPathOf cfg u fn) = none)
    (hne : destPathOf cfg u fn ≠ cp) :
    TusUploadView.patch cfg s (some rid) (some (intToStr o)) b none true
      ⟨aset M rid ⟨L, o, some fn, md, cp, u⟩, aset F cp c⟩ =
      (⟨204, none, some (o + ((catAll b).length : Int)), none⟩,
        ⟨adel M rid, aset (adel F cp) (destPathOf cfg u fn) (c ++ catAll b)⟩) := by
  have hown := check_ownership_self s ⟨L, o, some fn, md, cp, u⟩ hu
  have hload : load_metadata (aset M rid ⟨L, o, some fn, md, cp, u⟩) rid =
      some ⟨L, o, some fn, md, cp, u⟩ := aget_aset M rid _
  have hex : (aget (aset F cp (c ++ catAll b)) (destPathOf cfg u fn)).isSome = false := by
    rw [aget_aset_ne _ _ _ _ hne, hdest]
    rfl
  have hfd : find_dest (fun p => (aget (aset F cp (c ++ catAll b)) p).isSome)
      (cfg.TUS_DESTINATION_DIR ++ ofStr "/user_" ++ pyStrOf u) fn =
        destPathOf cfg u fn := by
    simp only [find_dest]
    exact (destLoop_spec (fun p => (aget (aset F cp (c ++ catAll b)) p).isSome)
      (cfg.TUS_DESTINATION_DIR ++ ofStr "/user_" ++ pyStrOf u)
      (splitext fn).1 (splitext fn).2 1000 1
      ((cfg.TUS_DESTINATION_DIR ++ ofStr "/user_" ++ pyStrOf u) ++ [47] ++ fn)
      (by omega) (by omega) (by omega)).1 hex
  simp only [List.append_assoc] at hfd
  simp [TusUploadView.patch, hauth, falsyId_some_ne hrid, hload, hown,
    pyInt_intToStr, writeLoop_none_ok b hb, aget_aset, aset_aset, save_metadata,
    hge, TusUploadView._finalize_upload, delete_metadata, adel_aset, hfd,
    destPathOf]

theorem patchSeq_run (cfg : Config) (s : Session) (rid : Str)
    (M : List (Str × Meta)) (F : List (Str × List Nat))
    (L : Int) (fn : Str) (md : List (Str × Option Str)) (cp : Str) (u : PyVal)
    (hauth : TusUploadView._check_auth s = none)
    (hrid : rid ≠ [])
    (hu : pyStrOf u = pyStrOf (TusUploadView._get_user_id s))
    (hdest : aget F (destPathOf cfg u fn) = none)
    (hne : destPathOf cfg u fn ≠ cp) :
    ∀ (bodies : List (List Str)) (o : Int) (c : List Nat),
      bodies ≠ [] →
      (∀ b ∈ bodies, ∀ p ∈ b, p ≠ []) →
      o + ((allBytes bodies).length : Int) = L →
      (∀ n, n < bodies.length → o + ((allBytes (bodies.take n)).length : Int) < L) →
      patchSeq cfg s rid bodies
        ⟨aset M rid ⟨L, o, some fn, md, cp, u⟩, aset F cp c⟩ =
        ⟨adel M rid, aset (adel F cp) (destPathOf cfg u fn) (c ++ allBytes bodies)⟩ := by
  intro bodies
  induction bodies with
  | nil => intro o c hne2 _ _ _; exact absurd rfl hne2
  | cons b rest ih =>
    intro o c _ hbs hsum hPref
    have hoff : offsetAt ⟨aset M rid ⟨L, o, some fn, md, cp, u⟩, aset F cp c⟩ rid = o := by
      simp [offsetAt, aget_aset]
    cases rest with
    | nil =>
      have hge : L ≤ o + ((catAll b).length : Int) := by
        simp only [allBytes, List.map_cons, List.map_nil, catAll,
          List.append_nil] at hsum
        omega
      simp only [patchSeq, hoff]
      rw [patch_step_final cfg s rid M F L o fn md cp u c b hauth hrid hu
        (hbs b (by simp)) hge hdest hne]
      simp [patchSeq, allBytes, catAll]
    | cons b2 rest2 =>
      have hlt : o + ((catAll b).length : Int) < L := by
        have hp := hPref 1 (by simp)
        simp only [List.take_succ_cons, List.take_zero, allBytes, List.map_cons,
          List.map_nil, catAll, List.append_nil] at hp
        omega
      have hstep : patchSeq cfg s rid (b :: b2 :: rest2)
          ⟨aset M rid ⟨L, o, some fn, md, cp, u⟩, aset F cp c⟩ =
          patchSeq cfg s rid (b2 :: rest2)
            ⟨aset M rid ⟨L, o + ((catAll b).length : Int), some fn, md, cp, u⟩,
              aset F cp (c ++ catAll b)⟩ := by
        conv_lhs => rw [patchSeq]
        rw [hoff, patch_step_mid cfg s rid M F L o fn md cp u c b hauth hrid hu
          (hbs b (by simp)) hlt]
      rw [hstep]
      rw [ih (o + ((catAll b).length : Int)) (c ++ catAll b)
        (by simp)
        (fun b3 hb3 => hbs b3 (by simp [hb3]))
        (by
          simp only [allBytes, List.map_cons, catAll, List.length_append] at hsum ⊢
          push_cast at hsum ⊢
          omega)
        (by
          intro n hn
          have hp := hPref (n + 1) (by simpa using Nat.succ_lt_succ hn)
          simp only [List.take_succ_cons, allBytes, List.map_cons, catAll,
            List.length_append] at hp ⊢
          push_cast at hp ⊢
          omega)]
      simp [allBytes, catAll, List.append_assoc]

/-- C4: an upload created with declared length L whose appends (by the
creating principal, claiming the correct offsets, with no I/O failures)
deliver exactly L bytes — every proper prefix of the appends staying
below L, so the last append reaches the length — is finalized by that
last append: the metadata record is gone, every subsequent authenticated
HEAD, PATCH or DELETE under the same identifier returns 404 and leaves
the state unchanged, and exactly one file appears in the destination
tree — at the per-user path `dp`, previously free (hypothesis `hdest`:
the probe's first candidate is unoccupied) — whose content is the
concatenation, in order, of all appended chunks; every other path except
the removed in-progress chunk file is untouched. -/
theorem c4_exactly_once_finalize
    (cfg : Config) (s : Session) (sys : Sys) (rid ls mh : Str)
    (bodies : List (List Str)) (L : Int) (fn : Str) (dp : Str) (final : Sys)
    (hauth : TusUploadView._check_auth s = none)
    (hrid : rid ≠ [])
    (hls : pyInt ls = some L)
    (hfn : postFilename mh = some fn)
    (hbne : bodies ≠ [])
    (hbs : ∀ b ∈ bodies, ∀ p ∈ b, p ≠ [])
    (hsum : ((allBytes bodies).length : Int) = L)
    (hPref : ∀ n, n < bodies.length → ((allBytes (bodies.take n)).length : Int) < L)
    (hdp : dp = destPathOf cfg (TusUploadView._get_user_id s) fn)
    (hdest : aget sys.files dp = none)
    (hne : dp ≠ cfg.TUS_UPLOAD_DIR ++ [47] ++ rid)
    (hfinal : final = patchSeq cfg s rid bodies
      (TusUploadView.post cfg s (some ls) mh rid true sys).2) :
    aget final.metas rid = none ∧
    aget final.files dp = some (allBytes bodies) ∧
    aget final.files (cfg.TUS_UPLOAD_DIR ++ [47] ++ rid) = none ∧
    (∀ p, p ≠ dp → p ≠ cfg.TUS_UPLOAD_DIR ++ [47] ++ rid →
      aget final.files p = aget sys.files p) ∧
    (∀ s2 : Session, TusUploadView._check_auth s2 = none →
      ∀ (offH : Option Str) (pieces : List Str) (fa : Option Nat) (so : Bool),
        TusUploadView.head cfg s2 (some rid) final = (plainResp 404, final) ∧
        TusUploadView.patch cfg s2 (some rid) offH pieces fa so final =
          (plainResp 404, final) ∧
        TusUploadView.delete cfg s2 (some rid) final = (plainResp 404, final)) := by
  have hlsne : ls ≠ [] := by
    rintro rfl
    simp [pyInt, pyStrip] at hls
  have hpost := post_success cfg s ls mh rid true sys L hauth hls hlsne
  have hrun := patchSeq_run cfg s rid sys.metas sys.files L fn
    (TusUploadView._parse_metadata mh) (cfg.TUS_UPLOAD_DIR ++ [47] ++ rid)
    (TusUploadView._get_user_id s) hauth hrid rfl
    (by rw [← hdp]; exact hdest) (by rw [← hdp]; exact hne)
    bodies 0 [] hbne hbs (by simpa using hsum)
    (fun n hn => by simpa using hPref n hn)
  have hfinal2 : final = ⟨adel sys.metas rid,
      aset (adel sys.files (cfg.TUS_UPLOAD_DIR ++ [47] ++ rid)) dp
        (allBytes bodies)⟩ := by
    rw [hfinal, hpost]
    rw [hdp]
    have hstate : (save_metadata sys.metas rid
        ⟨L, 0, postFilename mh, TusUploadView._parse_metadata mh,
          cfg.TUS_UPLOAD_DIR ++ [47] ++ rid, TusUploadView._get_user_id s⟩ true) =
        aset sys.metas rid
          ⟨L, 0, some fn, TusUploadView._parse_metadata mh,
            cfg.TUS_UPLOAD_DIR ++ [47] ++ rid, TusUploadView._get_user_id s⟩ := by
      rw [hfn]
      simp [save_metadata]
    simp only [hstate]
    simpa using hrun
  subst hfinal2
  refine ⟨aget_adel _ _, aget_aset _ _ _, ?_, ?_, ?_⟩
  · rw [aget_aset_ne _ _ _ _ (Ne.symm hne)]
    exact aget_adel _ _
  · intro p hp1 hp2
    rw [aget_aset_ne _ _ _ _ hp1, aget_adel_ne _ _ _ hp2]
  · intro s2 hauth2 offH pieces fa so
    refine ⟨?_, ?_, ?_⟩ <;>
      simp [TusUploadView.head, TusUploadView.patch, TusUploadView.delete,
        hauth2, falsyId_some_ne hrid, load_metadata, aget_adel]

/-- Bodies for the C4 witness: two appends, of two bytes and one byte. -/
def bodies0 : List (List Str) := [[[1, 2]], [[3]]]

/-- The destination path of the C4 witness upload. -/
def dp0 : Str := ofStr "dest/user_7/unknown"

/-- The state after creating a length-3 upload and appending `bodies0`. -/
def final0 : Sys :=
  patchSeq cfg0 s7 rid0 bodies0
    (TusUploadView.post cfg0 s7 (some (ofStr "3")) [] rid0 true sysE).2

/-- Witness for C4: after the concrete run the record is gone, the
destination file holds the three bytes in order, and a later
authenticated HEAD gets 404. -/
theorem c4_witness :
    aget final0.metas rid0 = none ∧
    aget final0.files dp0 = some [1, 2, 3] ∧
    TusUploadView.head cfg0 s9 (some rid0) final0 = (plainResp 404, final0) := by
  obtain ⟨h1, h2, h3, h4, h5⟩ := c4_exactly_once_finalize cfg0 s7 sysE rid0
    (ofStr "3") [] bodies0 3 (ofStr "unknown") dp0 final0
    (by decide) (by decide) (by decide) (by decide) (by decide) (by decide)
    (by decide)
    (by
      intro n hn
      have hn2 : n < 2 := by simpa [bodies0] using hn
      interval_cases n <;> decide)
    (by decide) (by decide) (by decide) rfl
  exact ⟨h1, by rw [h2]; decide, (h5 s9 (by decide) none [] none true).1⟩
